import Mathlib

/-!
Verification of the Markdown sanitizer in `scripts/clean_markdown.py`
(functions `clean_line` and `clean_markdown_content`).

Strings are modelled as `List Char`; a document is split on `'\n'` into
lines exactly as Python's `str.split('\n')` does.  Python's regexes are
translated into explicit decidable scans over character lists; `\d` is
modelled as the ASCII digits `0-9` and `\s` / `str.strip()` as the set of
Python whitespace characters.  The regex subjects in this program never
contain `'\n'` (they are lines produced by splitting on `'\n'`), so the
`$` anchor is modelled as end of string.
-/

/-- A line of text, modelled as a list of characters. -/
abbrev Line := List Char

/-- Characters stripped by Python's `str.strip()` (and matched by `\s`). -/
def isPyWS (c : Char) : Bool :=
  decide ((9 ≤ c.toNat ∧ c.toNat ≤ 13) ∨ (28 ≤ c.toNat ∧ c.toNat ≤ 32) ∨
    c.toNat = 133 ∨ c.toNat = 160 ∨ c.toNat = 0x1680 ∨
    (0x2000 ≤ c.toNat ∧ c.toNat ≤ 0x200a) ∨ c.toNat = 0x2028 ∨
    c.toNat = 0x2029 ∨ c.toNat = 0x202f ∨ c.toNat = 0x205f ∨ c.toNat = 0x3000)

/-- ASCII decimal digit, the model of `\d`. -/
def isDigit09 (c : Char) : Bool :=
  decide (48 ≤ c.toNat ∧ c.toNat ≤ 57)

/-- A character matching the class `[a-zA-Zа-яА-Я0-9]` of `clean_line`. -/
def isAlnumLatCyr (c : Char) : Bool :=
  decide ((97 ≤ c.toNat ∧ c.toNat ≤ 122) ∨ (65 ≤ c.toNat ∧ c.toNat ≤ 90) ∨
    (0x430 ≤ c.toNat ∧ c.toNat ≤ 0x44F) ∨ (0x410 ≤ c.toNat ∧ c.toNat ≤ 0x42F) ∨
    (48 ≤ c.toNat ∧ c.toNat ≤ 57))

/-- Python's `str.strip()`: remove leading and trailing whitespace. -/
def strip (l : Line) : Line :=
  ((l.dropWhile isPyWS).reverse.dropWhile isPyWS).reverse

/-- `raw_line.strip().startswith("<!-- Page")` (line 114 / line 139). -/
def isMarkerLine (l : Line) : Bool :=
  "<!-- Page".data.isPrefixOf (strip l)

/-- `re.search(r'Page\s*(\d+)', raw_line)` (line 115): scan left to right for
an occurrence of `Page`, skip whitespace, and return the maximal digit run
(the capture group) if it is nonempty; otherwise resume the scan one
character further. -/
def searchPage : Line → Option Line
  | [] => none
  | c :: t =>
    if "Page".data.isPrefixOf (c :: t) then
      if ((((c :: t).drop 4).dropWhile isPyWS).takeWhile isDigit09).isEmpty then searchPage t
      else some ((((c :: t).drop 4).dropWhile isPyWS).takeWhile isDigit09)
    else searchPage t

/-- The canonical marker `f"<!-- Page {match.group(1)} -->"` (line 117). -/
def mkMarker (ds : Line) : Line :=
  "<!-- Page ".data ++ ds ++ " -->".data

/-- `re.search(r'\.{2,}\s*\d+\s*$', last)` (line 141): the line ends with two
or more dots, then optional whitespace, then digits, then optional
whitespace.  Parsed deterministically from the right; this is equivalent to
the regex search because `\s*`/`\d+` runs anchored at `$` are forced to be
the maximal character runs. -/
def tocLike (l : Line) : Bool :=
  let r1 := l.reverse.dropWhile isPyWS
  let ds := r1.takeWhile isDigit09
  let r2 := (r1.dropWhile isDigit09).dropWhile isPyWS
  !ds.isEmpty &&
    match r2 with
    | c1 :: c2 :: _ => c1 == '.' && c2 == '.'
    | _ => false

/-- `re.search(r'[\.\!\?\:\—\-]$', s)` (line 148): last character is one of
`.`, `!`, `?`, `:`, `—` (U+2014) or `-`. -/
def endsTerminal (l : Line) : Bool :=
  match l.getLast? with
  | some c => c == '.' || c == '!' || c == '?' || c == ':' || c == '—' || c == '-'
  | none => false

/-- `re.match(r'^[\-\*\d\)\.]', stripped)` (line 146). -/
def startsListMarker (l : Line) : Bool :=
  match l with
  | c :: _ => c == '-' || c == '*' || isDigit09 c || c == ')' || c == '.'
  | [] => false

/-- One of the two hyphens of lines 150-151: ASCII `-` or U+2011 `‑`. -/
def isHyphenChar (c : Char) : Bool :=
  c == '-' || c == '‑'

/-- `last.endswith("-") or last.endswith("‑")` (line 150). -/
def endsHyphen (l : Line) : Bool :=
  match l.getLast? with
  | some c => isHyphenChar c
  | none => false

/-- `last.rstrip("-‑")` (line 151): drop all trailing hyphens of both kinds. -/
def rstripHyphens (l : Line) : Line :=
  (l.reverse.dropWhile isHyphenChar).reverse

/-- A character of the class `[\d\-\*\•]` (line 90). -/
def listMarkerChar (c : Char) : Bool :=
  isDigit09 c || c == '-' || c == '*' || c == '•'

/-- `re.match(r'^[\d\-\*\•]\.?$', stripped)` (line 90): a single class
character, optionally followed by a period, and nothing else. -/
def shortMarkerPat (l : Line) : Bool :=
  match l with
  | [c] => listMarkerChar c
  | [c, d] => listMarkerChar c && d == '.'
  | _ => false

/-- `clean_line` (lines 65-93): strip the line; keep empty lines; discard
lines shorter than 2 characters (unless an HTML comment), lines made only of
non-alphanumeric characters (the subject is nonempty in that branch, so
`.all` models `^[^a-zA-Zа-яА-Я0-9]+$`), and isolated short lines that are
not list markers; otherwise return the stripped line. -/
def cleanLine (raw : Line) : Option Line :=
  if (strip raw).isEmpty then some []
  else if decide ((strip raw).length < 2) && !"<!--".data.isPrefixOf (strip raw) then none
  else if (strip raw).all (fun c => !isAlnumLatCyr c) then none
  else if decide ((strip raw).length ≤ 3) && !"<!--".data.isPrefixOf (strip raw)
      && !shortMarkerPat (strip raw) then none
  else some (strip raw)

/-- The conjunction of the glue guards of lines 137-148, given the last
emitted line `last` and the stripped current line.  (All guard failures fall
through to the ordinary `clean_line` path; the check
`not isinstance(last, type(None))` on line 139 is always true and is
omitted.) -/
def glueCondB (last stripped : Line) : Bool :=
  !stripped.contains ' ' && !last.isEmpty && !isMarkerLine last &&
    !tocLike last && !startsListMarker stripped && !endsTerminal (strip last)

/-- The glued line of lines 150-153: if `last` ends in a hyphen, drop all
trailing hyphens and concatenate directly, else join with one space. -/
def glueResult (last stripped : Line) : Line :=
  if endsHyphen last then rstripHyphens last ++ stripped
  else last ++ ' ' :: stripped

/-- The loop state of `clean_markdown_content`: `rev` is the output buffer
`cleaned_lines` in reverse (most recent line first), `prev` is `prev_line`
(`none` models Python's `None`), `ce` is `consecutive_empty`. -/
structure CleanState where
  rev : List Line
  prev : Option Line
  ce : Nat
deriving DecidableEq, Repr

/-- Lines 158-176: ordinary cleaning of a line — apply `clean_line`, drop
discarded lines and consecutive duplicates, bound runs of empty lines. -/
def defaultClean (s : CleanState) (raw : Line) : CleanState :=
  match cleanLine raw with
  | none => s
  | some cleaned =>
    if s.prev = some cleaned ∧ cleaned ≠ [] then s
    else if cleaned.isEmpty then
      if s.ce + 1 > 2 then { s with ce := s.ce + 1 }
      else ⟨cleaned :: s.rev, some cleaned, s.ce + 1⟩
    else ⟨cleaned :: s.rev, some cleaned, 0⟩

/-- One iteration of the loop of `clean_markdown_content` (lines 112-176):
page markers first, then empty-line bounding, then the glue heuristic, then
ordinary cleaning. -/
def step (s : CleanState) (raw : Line) : CleanState :=
  if isMarkerLine raw then
    match searchPage raw with
    | some ds => ⟨[] :: mkMarker ds :: s.rev, some [], 1⟩
    | none => s
  else if (strip raw).isEmpty then
    if s.ce + 1 > 2 then { s with ce := s.ce + 1 }
    else ⟨[] :: s.rev, some [], s.ce + 1⟩
  else
    match s.rev with
    | last :: rest =>
      if glueCondB last (strip raw) then
        ⟨glueResult last (strip raw) :: rest, some (glueResult last (strip raw)), 0⟩
      else defaultClean s raw
    | [] => defaultClean s raw

/-- `content.split('\n')`: Python string split on newline (never empty; an
empty string splits to `[""]`). -/
def splitNl : Line → List Line
  | [] => [[]]
  | c :: t =>
    if c = '\n' then [] :: splitNl t
    else
      match splitNl t with
      | [] => [[c]]
      | h :: r => (c :: h) :: r

/-- The initial loop state (lines 107-109). -/
def initState : CleanState := ⟨[], none, 0⟩

/-- Run the loop over all lines. -/
def runLines (ls : List Line) : CleanState :=
  ls.foldl step initState

/-- Whether a line is empty (`== ""`). -/
def isEmptyLine (l : Line) : Bool := l.isEmpty

/-- Lines 179-182: pop empty lines from the front, then from the back. -/
def trimEnds (out : List Line) : List Line :=
  ((out.dropWhile isEmptyLine).reverse.dropWhile isEmptyLine).reverse

/-- The list of output lines for a given list of input lines. -/
def cleanedList (ls : List Line) : List Line :=
  trimEnds (runLines ls).rev.reverse

/-- The list of output lines of `clean_markdown_content` for an input text. -/
def cleanContent (c : Line) : List Line :=
  cleanedList (splitNl c)

/-- `clean_markdown_content` (lines 96-184): split, clean, join. -/
def clean_markdown_content (c : Line) : Line :=
  List.intercalate ['\n'] (cleanContent c)

/-- String literal helper for concrete inputs. -/
def lit (s : String) : Line := s.data

/-! ### Instrumentation and observation predicates -/

/-- Whether the glue branch (lines 137-156) fires on this state and line. -/
def glueHere (s : CleanState) (raw : Line) : Bool :=
  if isMarkerLine raw then false
  else if (strip raw).isEmpty then false
  else
    match s.rev with
    | last :: _ => glueCondB last (strip raw)
    | [] => false

/-- Whether the glue branch never fires while processing `ls` from `s`. -/
def glueFreeAux : CleanState → List Line → Bool
  | _, [] => true
  | s, l :: ls => !glueHere s l && glueFreeAux (step s l) ls

/-- Whether the glue branch never fires on input text `c`. -/
def glueFree (c : Line) : Bool :=
  glueFreeAux initState (splitNl c)

/-- Two identical consecutive non-empty lines occur somewhere. -/
def hasAdjDup : List Line → Bool
  | a :: b :: t => (!a.isEmpty && a == b) || hasAdjDup (b :: t)
  | _ => false

/-- Three consecutive empty lines occur somewhere. -/
def hasTripleEmptyLine : List Line → Bool
  | a :: b :: c :: t =>
    (a.isEmpty && b.isEmpty && c.isEmpty) || hasTripleEmptyLine (b :: c :: t)
  | _ => false

/-- Neither the first nor the last line of the list is empty. -/
def noEmptyEnds (ls : List Line) : Bool :=
  (match ls.head? with
   | some l => !l.isEmpty
   | none => true) &&
  (match ls.getLast? with
   | some l => !l.isEmpty
   | none => true)

/-- A canonical page marker: `"<!-- Page " ++ digits ++ " -->"` with a
nonempty digit run. -/
def isCanonMarker (l : Line) : Bool :=
  "<!-- Page ".data.isPrefixOf l &&
    !((l.drop 10).takeWhile isDigit09).isEmpty &&
    ((l.drop 10).drop ((l.drop 10).takeWhile isDigit09).length == " -->".data)

/-- The canonical marker an input line gives rise to, if any. -/
def markerOut (raw : Line) : Option Line :=
  if isMarkerLine raw then (searchPage raw).map mkMarker else none

/-! ### Supporting lemmas: lists -/

theorem dropWhile_length_le {α : Type} (p : α → Bool) :
    ∀ l : List α, (l.dropWhile p).length ≤ l.length
  | [] => Nat.le_refl _
  | a :: t => by
    rw [List.dropWhile_cons]
    by_cases h : p a = true
    · rw [if_pos h]
      exact Nat.le_trans (dropWhile_length_le p t) (Nat.le_succ _)
    · rw [if_neg h]

theorem head?_dropWhile_not {α : Type} (p : α → Bool) :
    ∀ (l : List α) (a : α), (l.dropWhile p).head? = some a → p a = false
  | [], a, h => by simp [List.dropWhile] at h
  | b :: t, a, h => by
    rw [List.dropWhile_cons] at h
    by_cases hb : p b = true
    · exact head?_dropWhile_not p t a (by rwa [if_pos hb] at h)
    · rw [if_neg hb, List.head?_cons, Option.some.injEq] at h
      subst h
      simpa using hb

theorem dropWhile_head_false {α : Type} (p : α → Bool) (l : List α) (a : α)
    (h : l.head? = some a) (hp : p a = false) : l.dropWhile p = l := by
  cases l with
  | nil => rfl
  | cons b t =>
    rw [List.head?_cons, Option.some.injEq] at h
    subst h
    rw [List.dropWhile_cons, if_neg (by simp [hp])]

theorem getLast?_of_suffix {α : Type} {l₁ l₂ : List α} (h : l₁ <:+ l₂) (hne : l₁ ≠ []) :
    l₂.getLast? = l₁.getLast? := by
  obtain ⟨t, rfl⟩ := h
  exact List.getLast?_append_of_ne_nil t hne

theorem isPrefixOf_append_self {α : Type} [BEq α] [LawfulBEq α] :
    ∀ (l t : List α), l.isPrefixOf (l ++ t) = true
  | [], _ => by simp [List.isPrefixOf]
  | a :: as, t => by simp [List.isPrefixOf, isPrefixOf_append_self as t]

theorem eq_append_of_isPrefixOf {α : Type} [BEq α] [LawfulBEq α] :
    ∀ {l₁ l₂ : List α}, l₁.isPrefixOf l₂ = true → ∃ t, l₂ = l₁ ++ t
  | [], l₂, _ => ⟨l₂, rfl⟩
  | a :: as, [], h => by simp [List.isPrefixOf] at h
  | a :: as, b :: bs, h => by
    simp only [List.isPrefixOf, Bool.and_eq_true, beq_iff_eq] at h
    obtain ⟨rfl, h2⟩ := h
    obtain ⟨t, rfl⟩ := eq_append_of_isPrefixOf h2
    exact ⟨t, rfl⟩

theorem takeWhile_append_drop_len {α : Type} (p : α → Bool) :
    ∀ l : List α, l.takeWhile p ++ l.drop (l.takeWhile p).length = l
  | [] => rfl
  | a :: t => by
    rw [List.takeWhile_cons]
    by_cases h : p a = true
    · rw [if_pos h]
      simp only [List.length_cons, List.drop_succ_cons, List.cons_append]
      rw [takeWhile_append_drop_len p t]
    · rw [if_neg h]
      simp

theorem takeWhile_append_sat {α : Type} (p : α → Bool) :
    ∀ (ds : List α) (x : α) (rest : List α), (∀ c ∈ ds, p c = true) → p x = false →
      (ds ++ x :: rest).takeWhile p = ds
  | [], x, rest, _, hx => by simp [List.takeWhile_cons, hx]
  | a :: ds, x, rest, h, hx => by
    simp only [List.cons_append, List.takeWhile_cons, h a (List.mem_cons_self a ds), if_pos]
    rw [takeWhile_append_sat p ds x rest (fun c hc => h c (List.mem_cons_of_mem a hc)) hx]

theorem contains_of_mem {a : Char} {l : Line} (h : a ∈ l) : l.contains a = true := by
  simpa [List.contains] using List.elem_eq_true_of_mem h

/-! ### Supporting lemmas: strip -/

theorem strip_length_le (l : Line) : (strip l).length ≤ l.length := by
  unfold strip
  rw [List.length_reverse]
  calc ((l.dropWhile isPyWS).reverse.dropWhile isPyWS).length
      ≤ (l.dropWhile isPyWS).reverse.length := dropWhile_length_le _ _
    _ = (l.dropWhile isPyWS).length := List.length_reverse _
    _ ≤ l.length := dropWhile_length_le _ _

theorem strip_last_not_ws (l : Line) (b : Char) (h : (strip l).getLast? = some b) :
    isPyWS b = false := by
  unfold strip at h
  rw [List.getLast?_reverse] at h
  exact head?_dropWhile_not _ _ _ h

theorem strip_head_not_ws (l : Line) (a : Char) (h : (strip l).head? = some a) :
    isPyWS a = false := by
  unfold strip at h
  rw [List.head?_reverse] at h
  have hBne : (l.dropWhile isPyWS).reverse.dropWhile isPyWS ≠ [] := by
    intro hnil; rw [hnil] at h; simp at h
  have h1 : ((l.dropWhile isPyWS).reverse).getLast?
      = ((l.dropWhile isPyWS).reverse.dropWhile isPyWS).getLast? :=
    getLast?_of_suffix (List.dropWhile_suffix _) hBne
  rw [List.getLast?_reverse] at h1
  rw [← h1] at h
  exact head?_dropWhile_not _ _ _ h

theorem strip_eq_self_of_ends (l : Line)
    (h1 : ∀ a, l.head? = some a → isPyWS a = false)
    (h2 : ∀ b, l.getLast? = some b → isPyWS b = false) : strip l = l := by
  unfold strip
  cases l with
  | nil => rfl
  | cons a t =>
    have hd : (a :: t).dropWhile isPyWS = a :: t :=
      dropWhile_head_false _ _ a rfl (h1 a rfl)
    rw [hd]
    have hne : (a :: t).reverse ≠ [] := by simp
    obtain ⟨b, hb⟩ : ∃ b, (a :: t).reverse.head? = some b := by
      cases hh : (a :: t).reverse with
      | nil => exact absurd hh hne
      | cons x xs => exact ⟨x, rfl⟩
    have hbl : (a :: t).getLast? = some b := by rw [← List.head?_reverse]; exact hb
    rw [dropWhile_head_false _ _ b hb (h2 b hbl), List.reverse_reverse]

theorem strip_idem (l : Line) : strip (strip l) = strip l :=
  strip_eq_self_of_ends _ (strip_head_not_ws l) (strip_last_not_ws l)

/-! ### Supporting lemmas: markers, clean_line -/

theorem mkMarker_head (ds : Line) : (mkMarker ds).head? = some '<' := by
  have h10 : ("<!-- Page ".data : List Char) = '<' :: "!-- Page ".data := by decide
  unfold mkMarker
  rw [h10]
  simp

theorem mkMarker_getLast (ds : Line) : (mkMarker ds).getLast? = some '>' := by
  unfold mkMarker
  rw [List.getLast?_append_of_ne_nil _ (by decide)]
  decide

theorem mkMarker_ne_nil (ds : Line) : mkMarker ds ≠ [] := by
  intro h
  have := congrArg List.head? h
  rw [mkMarker_head ds] at this
  simp at this

theorem mkMarker_isEmpty (ds : Line) : (mkMarker ds).isEmpty = false := by
  cases h : (mkMarker ds).isEmpty
  · rfl
  · exact absurd (List.isEmpty_eq_true.mp h) (mkMarker_ne_nil ds)

theorem strip_mkMarker (ds : Line) : strip (mkMarker ds) = mkMarker ds := by
  apply strip_eq_self_of_ends
  · intro a ha
    rw [mkMarker_head ds, Option.some.injEq] at ha
    subst ha; decide
  · intro b hb
    rw [mkMarker_getLast ds, Option.some.injEq] at hb
    subst hb; decide

theorem isMarkerLine_mkMarker (ds : Line) : isMarkerLine (mkMarker ds) = true := by
  unfold isMarkerLine
  rw [strip_mkMarker]
  have h : mkMarker ds = "<!-- Page".data ++ (' ' :: (ds ++ " -->".data)) := by
    unfold mkMarker
    have h10 : ("<!-- Page ".data : List Char) = "<!-- Page".data ++ [' '] := by decide
    rw [h10]
    simp
  rw [h]
  exact isPrefixOf_append_self _ _

theorem isMarkerLine_nil : isMarkerLine ([] : Line) = false := by decide

theorem searchPage_some :
    ∀ (raw ds : Line), searchPage raw = some ds → ds ≠ [] ∧ ∀ c ∈ ds, isDigit09 c = true
  | [], ds, h => by simp [searchPage] at h
  | c :: t, ds, h => by
    rw [searchPage] at h
    split at h
    · split at h
      · exact searchPage_some t ds h
      · next hne =>
        rw [Option.some.injEq] at h
        subst h
        refine ⟨?_, fun x hx => List.mem_takeWhile_imp hx⟩
        intro hnil
        rw [hnil] at hne
        simp at hne
    · exact searchPage_some t ds h

theorem cleanLine_some_eq (raw cleaned : Line)
    (h : cleanLine raw = some cleaned) : cleaned = strip raw := by
  unfold cleanLine at h
  split at h
  · next hemp =>
    rw [Option.some.injEq] at h
    subst h
    exact (List.isEmpty_eq_true.mp hemp).symm
  · split at h
    · exact absurd h (by simp)
    · split at h
      · exact absurd h (by simp)
      · split at h
        · exact absurd h (by simp)
        · rw [Option.some.injEq] at h
          exact h.symm

theorem isMarkerLine_of_cleanLine (raw cleaned : Line)
    (hm : isMarkerLine raw = false) (h : cleanLine raw = some cleaned) :
    isMarkerLine cleaned = false := by
  have he := cleanLine_some_eq raw cleaned h
  subst he
  unfold isMarkerLine at *
  rwa [strip_idem]

/-! ### Supporting lemmas: adjacent duplicates -/

theorem hasAdjDup_tail : ∀ (a : Line) (l : List Line),
    hasAdjDup (a :: l) = false → hasAdjDup l = false
  | _, [], _ => rfl
  | _, b :: t, h => by
    rw [hasAdjDup] at h
    exact (Bool.or_eq_false_iff.mp h).2

theorem hasAdjDup_cons_false (x : Line) (l : List Line) (h : hasAdjDup l = false)
    (hx : x.isEmpty = true ∨ l.head? ≠ some x) : hasAdjDup (x :: l) = false := by
  match l with
  | [] => rfl
  | b :: t =>
    rw [hasAdjDup]
    simp only [Bool.or_eq_false_iff]
    refine ⟨?_, h⟩
    rcases hx with hx | hx
    · simp [hx]
    · have hne : x ≠ b := fun he => hx (by rw [he]; rfl)
      simp [hne]

theorem hasAdjDup_cons_of (a : Line) : ∀ l : List Line,
    hasAdjDup l = true → hasAdjDup (a :: l) = true
  | b :: c :: t, h => by rw [hasAdjDup, h]; simp
  | [], h => by rw [show hasAdjDup ([] : List Line) = false from rfl] at h; exact absurd h (by simp)
  | [b], h => by rw [show hasAdjDup [b] = false from rfl] at h; exact absurd h (by simp)

theorem exists_hasAdjDup : ∀ (s t : List Line) (x : Line),
    x.isEmpty = false → hasAdjDup (s ++ x :: x :: t) = true
  | [], t, x, hx => by rw [List.nil_append, hasAdjDup]; simp [hx]
  | a :: s, t, x, hx => by
    rw [List.cons_append]
    exact hasAdjDup_cons_of a _ (exists_hasAdjDup s t x hx)

theorem hasAdjDup_exists : ∀ l : List Line, hasAdjDup l = true →
    ∃ s t x, x.isEmpty = false ∧ l = s ++ x :: x :: t
  | [], h => by rw [show hasAdjDup ([] : List Line) = false from rfl] at h; exact absurd h (by simp)
  | [a], h => by rw [show hasAdjDup [a] = false from rfl] at h; exact absurd h (by simp)
  | a :: b :: t, h => by
    rw [hasAdjDup] at h
    rcases Bool.or_eq_true_iff.mp h with h1 | h2
    · simp only [Bool.and_eq_true, Bool.not_eq_true', beq_iff_eq] at h1
      obtain ⟨ha, rfl⟩ := h1
      exact ⟨[], t, a, ha, rfl⟩
    · obtain ⟨s, t', x, hx, heq⟩ := hasAdjDup_exists (b :: t) h2
      exact ⟨a :: s, t', x, hx, by rw [List.cons_append, ← heq]⟩

theorem hasAdjDup_reverse_false (l : List Line) (h : hasAdjDup l = false) :
    hasAdjDup l.reverse = false := by
  cases hr : hasAdjDup l.reverse
  · rfl
  · obtain ⟨s, t, x, hx, heq⟩ := hasAdjDup_exists _ hr
    have h2 : l = t.reverse ++ x :: x :: s.reverse := by
      have h3 := congrArg List.reverse heq
      rw [List.reverse_reverse] at h3
      rw [h3]
      simp [List.reverse_append]
    have hc : hasAdjDup l = true := by
      rw [h2]; exact exists_hasAdjDup _ _ _ hx
    simp [h] at hc

theorem hasAdjDup_dropWhile_false (p : Line → Bool) :
    ∀ l : List Line, hasAdjDup l = false → hasAdjDup (l.dropWhile p) = false
  | [], h => h
  | a :: t, h => by
    rw [List.dropWhile_cons]
    by_cases hp : p a = true
    · rw [if_pos hp]
      exact hasAdjDup_dropWhile_false p t (hasAdjDup_tail a t h)
    · rw [if_neg hp]; exact h

/-! ### Supporting lemmas: triple empty lines -/

theorem hasTriple_tail : ∀ (a : Line) (l : List Line),
    hasTripleEmptyLine (a :: l) = false → hasTripleEmptyLine l = false
  | _, [], _ => rfl
  | _, [b], _ => rfl
  | _, b :: c :: t, h => by
    rw [hasTripleEmptyLine] at h
    exact (Bool.or_eq_false_iff.mp h).2

theorem hasTriple_cons_ne (x : Line) (l : List Line) (hx : x.isEmpty = false)
    (h : hasTripleEmptyLine l = false) : hasTripleEmptyLine (x :: l) = false := by
  match l with
  | [] => rfl
  | [b] => rfl
  | b :: c :: t =>
    rw [hasTripleEmptyLine]
    simp [hx, h]

theorem hasTriple_cons_empty (l : List Line) (h : hasTripleEmptyLine l = false)
    (htw : (l.takeWhile isEmptyLine).length ≤ 1) :
    hasTripleEmptyLine (([] : Line) :: l) = false := by
  match l with
  | [] => rfl
  | [b] => rfl
  | b :: c :: t =>
    rw [hasTripleEmptyLine]
    simp only [Bool.or_eq_false_iff]
    refine ⟨?_, h⟩
    by_cases hb : b.isEmpty = true
    · by_cases hc : c.isEmpty = true
      · exfalso
        simp [List.takeWhile_cons, isEmptyLine, hb, hc] at htw
      · simp [hc]
    · simp [Bool.not_eq_true] at hb
      simp [hb]

theorem hasTriple_cons_of (a : Line) : ∀ l : List Line,
    hasTripleEmptyLine l = true → hasTripleEmptyLine (a :: l) = true
  | b :: c :: t, h => by rw [hasTripleEmptyLine, h]; simp
  | [], h => by
    rw [show hasTripleEmptyLine ([] : List Line) = false from rfl] at h
    exact absurd h (by simp)
  | [b], h => by
    rw [show hasTripleEmptyLine [b] = false from rfl] at h
    exact absurd h (by simp)

theorem exists_hasTriple : ∀ s t : List Line,
    hasTripleEmptyLine (s ++ ([] : Line) :: ([] : Line) :: ([] : Line) :: t) = true
  | [], t => by rw [List.nil_append, hasTripleEmptyLine]; simp
  | a :: s, t => by
    rw [List.cons_append]
    exact hasTriple_cons_of a _ (exists_hasTriple s t)

theorem hasTriple_exists : ∀ l : List Line, hasTripleEmptyLine l = true →
    ∃ s t, l = s ++ ([] : Line) :: ([] : Line) :: ([] : Line) :: t
  | [], h => by
    rw [show hasTripleEmptyLine ([] : List Line) = false from rfl] at h
    exact absurd h (by simp)
  | [a], h => by
    rw [show hasTripleEmptyLine [a] = false from rfl] at h
    exact absurd h (by simp)
  | [a, b], h => by
    rw [show hasTripleEmptyLine [a, b] = false from rfl] at h
    exact absurd h (by simp)
  | a :: b :: c :: t, h => by
    rw [hasTripleEmptyLine] at h
    rcases Bool.or_eq_true_iff.mp h with h1 | h2
    · simp only [Bool.and_eq_true, List.isEmpty_eq_true] at h1
      obtain ⟨⟨rfl, rfl⟩, rfl⟩ := h1
      exact ⟨[], t, rfl⟩
    · obtain ⟨s, t', heq⟩ := hasTriple_exists (b :: c :: t) h2
      exact ⟨a :: s, t', by rw [List.cons_append, ← heq]⟩

theorem hasTriple_reverse_false (l : List Line) (h : hasTripleEmptyLine l = false) :
    hasTripleEmptyLine l.reverse = false := by
  cases hr : hasTripleEmptyLine l.reverse
  · rfl
  · obtain ⟨s, t, heq⟩ := hasTriple_exists _ hr
    have h2 : l = t.reverse ++ ([] : Line) :: ([] : Line) :: ([] : Line) :: s.reverse := by
      have h3 := congrArg List.reverse heq
      rw [List.reverse_reverse] at h3
      rw [h3]
      simp [List.reverse_append]
    have hc : hasTripleEmptyLine l = true := by
      rw [h2]; exact exists_hasTriple _ _
    simp [h] at hc

theorem hasTriple_dropWhile_false (p : Line → Bool) :
    ∀ l : List Line, hasTripleEmptyLine l = false → hasTripleEmptyLine (l.dropWhile p) = false
  | [], h => h
  | a :: t, h => by
    rw [List.dropWhile_cons]
    by_cases hp : p a = true
    · rw [if_pos hp]
      exact hasTriple_dropWhile_false p t (hasTriple_tail a t h)
    · rw [if_neg hp]; exact h

/-! ### Case eliminators for the loop body -/

theorem defaultClean_elim (P : CleanState → Prop) (s : CleanState) (raw : Line)
    (hnone : cleanLine raw = none → P s)
    (hdup : ∀ cleaned, cleanLine raw = some cleaned → s.prev = some cleaned → cleaned ≠ [] → P s)
    (hempty2 : ∀ cleaned, cleanLine raw = some cleaned → ¬(s.prev = some cleaned ∧ cleaned ≠ []) →
      cleaned.isEmpty = true → s.ce + 1 > 2 → P { s with ce := s.ce + 1 })
    (hempty1 : ∀ cleaned, cleanLine raw = some cleaned → ¬(s.prev = some cleaned ∧ cleaned ≠ []) →
      cleaned.isEmpty = true → ¬(s.ce + 1 > 2) → P ⟨cleaned :: s.rev, some cleaned, s.ce + 1⟩)
    (happ : ∀ cleaned, cleanLine raw = some cleaned → ¬(s.prev = some cleaned ∧ cleaned ≠ []) →
      cleaned.isEmpty = false → P ⟨cleaned :: s.rev, some cleaned, 0⟩) :
    P (defaultClean s raw) := by
  unfold defaultClean
  cases hcl : cleanLine raw with
  | none => exact hnone hcl
  | some cleaned =>
    dsimp only
    by_cases hd : s.prev = some cleaned ∧ cleaned ≠ []
    · rw [if_pos hd]; exact hdup cleaned hcl hd.1 hd.2
    · rw [if_neg hd]
      by_cases he : cleaned.isEmpty = true
      · rw [if_pos he]
        by_cases hce : s.ce + 1 > 2
        · rw [if_pos hce]; exact hempty2 cleaned hcl hd he hce
        · rw [if_neg hce]; exact hempty1 cleaned hcl hd he hce
      · rw [if_neg he]
        exact happ cleaned hcl hd (by simpa using he)

theorem step_elim (P : CleanState → Prop) (s : CleanState) (raw : Line)
    (hm : ∀ ds, isMarkerLine raw = true → searchPage raw = some ds →
      P ⟨[] :: mkMarker ds :: s.rev, some [], 1⟩)
    (hmn : isMarkerLine raw = true → searchPage raw = none → P s)
    (he2 : isMarkerLine raw = false → (strip raw).isEmpty = true → s.ce + 1 > 2 →
      P { s with ce := s.ce + 1 })
    (he1 : isMarkerLine raw = false → (strip raw).isEmpty = true → ¬(s.ce + 1 > 2) →
      P ⟨[] :: s.rev, some [], s.ce + 1⟩)
    (hg : ∀ last rest, isMarkerLine raw = false → (strip raw).isEmpty = false →
      s.rev = last :: rest → glueCondB last (strip raw) = true →
      P ⟨glueResult last (strip raw) :: rest, some (glueResult last (strip raw)), 0⟩)
    (hd : isMarkerLine raw = false → (strip raw).isEmpty = false →
      (s.rev = [] ∨ ∃ last rest, s.rev = last :: rest ∧ glueCondB last (strip raw) = false) →
      P (defaultClean s raw)) :
    P (step s raw) := by
  unfold step
  by_cases h1 : isMarkerLine raw = true
  · rw [if_pos h1]
    cases hs : searchPage raw with
    | none => exact hmn h1 hs
    | some ds => exact hm ds h1 hs

  · have h1' : isMarkerLine raw = false := by simpa using h1
    rw [if_neg h1]
    by_cases h2 : (strip raw).isEmpty = true
    · rw [if_pos h2]
      by_cases h3 : s.ce + 1 > 2
      · rw [if_pos h3]; exact he2 h1' h2 h3
      · rw [if_neg h3]; exact he1 h1' h2 h3
    · have h2' : (strip raw).isEmpty = false := by simpa using h2
      rw [if_neg h2]
      cases hr : s.rev with
      | nil => exact hd h1' h2' (Or.inl hr)
      | cons last rest =>
        dsimp only
        by_cases h4 : glueCondB last (strip raw) = true
        · rw [if_pos h4]; exact hg last rest h1' h2' hr h4
        · rw [if_neg h4]; exact hd h1' h2' (Or.inr ⟨last, rest, hr, by simpa using h4⟩)

/-! ### Glue facts -/

theorem glueCondB_facts (last w : Line) (h : glueCondB last w = true) :
    w.contains ' ' = false ∧ last.isEmpty = false ∧ isMarkerLine last = false ∧
      tocLike last = false ∧ startsListMarker w = false ∧ endsTerminal (strip last) = false := by
  unfold glueCondB at h
  simp only [Bool.and_eq_true, Bool.not_eq_true'] at h
  obtain ⟨⟨⟨⟨⟨h1, h2⟩, h3⟩, h4⟩, h5⟩, h6⟩ := h
  exact ⟨h1, h2, h3, h4, h5, h6⟩

theorem isEmpty_append_right (A w : Line) (hw : w.isEmpty = false) :
    (A ++ w).isEmpty = false := by
  cases h0 : (A ++ w).isEmpty
  · rfl
  · have h1 := List.isEmpty_eq_true.mp h0
    rw [List.append_eq_nil] at h1
    rw [h1.2] at hw
    simp at hw

theorem glueResult_isEmpty (last w : Line) (hw : w.isEmpty = false) :
    (glueResult last w).isEmpty = false := by
  unfold glueResult
  by_cases hh : endsHyphen last = true
  · rw [if_pos hh]
    exact isEmpty_append_right _ _ hw
  · rw [if_neg hh]
    exact isEmpty_append_right _ _ rfl

theorem rstripHyphens_head (last : Line) (x : Char) (xs : Line)
    (hA : rstripHyphens last = x :: xs) : last.head? = some x := by
  unfold rstripHyphens at hA
  have hDne : last.reverse.dropWhile isHyphenChar ≠ [] := by
    intro h0; rw [h0] at hA; simp at hA
  have h1 : (last.reverse.dropWhile isHyphenChar).reverse.head? = some x := by
    rw [hA]; rfl
  rw [List.head?_reverse] at h1
  rw [← getLast?_of_suffix (List.dropWhile_suffix isHyphenChar) hDne] at h1
  rwa [List.getLast?_reverse] at h1

theorem strip_glueResult (last w : Line) (hlast : strip last = last) (hlne : last.isEmpty = false)
    (hw : strip w = w) (hwne : w.isEmpty = false) :
    strip (glueResult last w) = glueResult last w := by
  have hwnil : w ≠ [] := fun h0 => by rw [h0] at hwne; simp at hwne
  have hwlast : ∀ b, w.getLast? = some b → isPyWS b = false := by
    intro b hb
    exact strip_last_not_ws w b (by rwa [hw])
  have hlhead : ∀ a, last.head? = some a → isPyWS a = false := by
    intro a ha
    exact strip_head_not_ws last a (by rwa [hlast])
  unfold glueResult
  by_cases hh : endsHyphen last = true
  · rw [if_pos hh]
    apply strip_eq_self_of_ends
    · intro a ha
      cases hA : rstripHyphens last with
      | nil =>
        rw [hA, List.nil_append] at ha
        exact strip_head_not_ws w a (by rwa [hw])
      | cons x xs =>
        rw [hA, List.cons_append, List.head?_cons, Option.some.injEq] at ha
        subst ha
        exact hlhead x (rstripHyphens_head last x xs hA)
    · intro b hb
      rw [List.getLast?_append_of_ne_nil _ hwnil] at hb
      exact hwlast b hb
  · rw [if_neg hh]
    apply strip_eq_self_of_ends
    · intro a ha
      cases hL : last with
      | nil => rw [hL] at hlne; simp at hlne
      | cons x xs =>
        rw [hL, List.cons_append, List.head?_cons, Option.some.injEq] at ha
        subst ha
        exact hlhead x (by rw [hL]; rfl)
    · intro b hb
      rw [List.getLast?_append_of_ne_nil _ (by simp : ' ' :: w ≠ [])] at hb
      rw [show ' ' :: w = [' '] ++ w from rfl, List.getLast?_append_of_ne_nil _ hwnil] at hb
      exact hwlast b hb

/-! ### Invariant: every output line is its own strip (C10) -/

theorem stripped_inv_defaultClean (s : CleanState) (raw : Line)
    (h : ∀ l ∈ s.rev, strip l = l) : ∀ l ∈ (defaultClean s raw).rev, strip l = l := by
  refine defaultClean_elim (fun s' => ∀ l ∈ s'.rev, strip l = l) s raw ?_ ?_ ?_ ?_ ?_
  · intro _; exact h
  · intro cleaned _ _ _; exact h
  · intro cleaned _ _ _ _; exact h
  · intro cleaned hcl _ _ _ l hl
    rcases List.mem_cons.mp hl with rfl | hl
    · rw [cleanLine_some_eq raw _ hcl]; exact strip_idem raw
    · exact h l hl
  · intro cleaned hcl _ _ l hl
    rcases List.mem_cons.mp hl with rfl | hl
    · rw [cleanLine_some_eq raw _ hcl]; exact strip_idem raw
    · exact h l hl

theorem stripped_inv_step (s : CleanState) (raw : Line)
    (h : ∀ l ∈ s.rev, strip l = l) : ∀ l ∈ (step s raw).rev, strip l = l := by
  refine step_elim (fun s' => ∀ l ∈ s'.rev, strip l = l) s raw ?_ ?_ ?_ ?_ ?_ ?_
  · intro ds _ _ l hl
    rcases List.mem_cons.mp hl with rfl | hl
    · rfl
    · rcases List.mem_cons.mp hl with rfl | hl
      · exact strip_mkMarker ds
      · exact h l hl
  · intro _ _; exact h
  · intro _ _ _; exact h
  · intro _ _ _ l hl
    rcases List.mem_cons.mp hl with rfl | hl
    · rfl
    · exact h l hl
  · intro last rest _ h2 hrev h4 l hl
    obtain ⟨_, hlne, _, _, _, _⟩ := glueCondB_facts _ _ h4
    have hlast : strip last = last := h last (by rw [hrev]; exact List.mem_cons_self _ _)
    rcases List.mem_cons.mp hl with rfl | hl
    · exact strip_glueResult last (strip raw) hlast hlne (strip_idem raw) h2
    · exact h l (by rw [hrev]; exact List.mem_cons_of_mem _ hl)
  · intro _ _ _
    exact stripped_inv_defaultClean s raw h

theorem stripped_inv_run : ∀ (ls : List Line) (s : CleanState),
    (∀ l ∈ s.rev, strip l = l) → ∀ l ∈ (ls.foldl step s).rev, strip l = l
  | [], _, h => h
  | raw :: ls, s, h => stripped_inv_run ls (step s raw) (stripped_inv_step s raw h)

/-! ### Invariant: no triple empty lines (C5) -/

theorem tw_len_cons_empty (l : List Line) :
    ((([] : Line) :: l).takeWhile isEmptyLine).length = (l.takeWhile isEmptyLine).length + 1 := by
  rw [List.takeWhile_cons, if_pos (by rfl)]
  rfl

theorem tw_len_cons_ne (x : Line) (l : List Line) (hx : x.isEmpty = false) :
    ((x :: l).takeWhile isEmptyLine).length = 0 := by
  rw [List.takeWhile_cons, if_neg (by simp [isEmptyLine, hx])]
  rfl

theorem triple_inv_defaultClean (s : CleanState) (raw : Line)
    (h : hasTripleEmptyLine s.rev = false ∧
      (s.rev.takeWhile isEmptyLine).length ≤ s.ce) :
    hasTripleEmptyLine (defaultClean s raw).rev = false ∧
      ((defaultClean s raw).rev.takeWhile isEmptyLine).length ≤ (defaultClean s raw).ce := by
  refine defaultClean_elim (fun s' => hasTripleEmptyLine s'.rev = false ∧
      (s'.rev.takeWhile isEmptyLine).length ≤ s'.ce) s raw ?_ ?_ ?_ ?_ ?_
  · intro _; exact h
  · intro _ _ _ _; exact h
  · intro _ _ _ _ _
    exact ⟨h.1, Nat.le_trans h.2 (Nat.le_succ _)⟩
  · intro cleaned _ _ he hce
    have hce1 : s.ce ≤ 1 := by omega
    obtain rfl := List.isEmpty_eq_true.mp he
    constructor
    · exact hasTriple_cons_empty _ h.1 (Nat.le_trans h.2 hce1)
    · rw [tw_len_cons_empty]
      exact Nat.succ_le_succ h.2
  · intro cleaned _ _ he
    constructor
    · exact hasTriple_cons_ne _ _ he h.1
    · rw [tw_len_cons_ne _ _ he]

theorem triple_inv_step (s : CleanState) (raw : Line)
    (h : hasTripleEmptyLine s.rev = false ∧
      (s.rev.takeWhile isEmptyLine).length ≤ s.ce) :
    hasTripleEmptyLine (step s raw).rev = false ∧
      ((step s raw).rev.takeWhile isEmptyLine).length ≤ (step s raw).ce := by
  refine step_elim (fun s' => hasTripleEmptyLine s'.rev = false ∧
      (s'.rev.takeWhile isEmptyLine).length ≤ s'.ce) s raw ?_ ?_ ?_ ?_ ?_ ?_
  · intro ds _ _
    have hM := mkMarker_isEmpty ds
    constructor
    · exact hasTriple_cons_empty _ (hasTriple_cons_ne _ _ hM h.1)
        (by rw [tw_len_cons_ne _ _ hM]; omega)
    · rw [tw_len_cons_empty, tw_len_cons_ne _ _ hM]
  · intro _ _; exact h
  · intro _ _ _
    exact ⟨h.1, Nat.le_trans h.2 (Nat.le_succ _)⟩
  · intro _ _ hce
    have hce1 : s.ce ≤ 1 := by omega
    constructor
    · exact hasTriple_cons_empty _ h.1 (Nat.le_trans h.2 hce1)
    · rw [tw_len_cons_empty]
      exact Nat.succ_le_succ h.2
  · intro last rest _ h2 hrev h4
    have hg : (glueResult last (strip raw)).isEmpty = false := glueResult_isEmpty _ _ h2
    constructor
    · apply hasTriple_cons_ne _ _ hg
      apply hasTriple_tail last
      rw [← hrev]
      exact h.1
    · rw [tw_len_cons_ne _ _ hg]
  · intro _ _ _
    exact triple_inv_defaultClean s raw h

theorem triple_inv_run : ∀ (ls : List Line) (s : CleanState),
    hasTripleEmptyLine s.rev = false ∧ (s.rev.takeWhile isEmptyLine).length ≤ s.ce →
    hasTripleEmptyLine (ls.foldl step s).rev = false ∧
      ((ls.foldl step s).rev.takeWhile isEmptyLine).length ≤ (ls.foldl step s).ce
  | [], _, h => h
  | raw :: ls, s, h => triple_inv_run ls (step s raw) (triple_inv_step s raw h)

/-! ### Invariant: no adjacent duplicates without glue (C2 amended) -/

theorem adj_inv_defaultClean (s : CleanState) (raw : Line) (hmr : isMarkerLine raw = false)
    (h : s.prev = s.rev.head? ∧ (∀ x, s.rev.head? = some x → isMarkerLine x = false) ∧
      hasAdjDup s.rev = false) :
    (defaultClean s raw).prev = (defaultClean s raw).rev.head? ∧
      (∀ x, (defaultClean s raw).rev.head? = some x → isMarkerLine x = false) ∧
      hasAdjDup (defaultClean s raw).rev = false := by
  refine defaultClean_elim (fun s' => s'.prev = s'.rev.head? ∧
      (∀ x, s'.rev.head? = some x → isMarkerLine x = false) ∧
      hasAdjDup s'.rev = false) s raw ?_ ?_ ?_ ?_ ?_
  · intro _; exact h
  · intro _ _ _ _; exact h
  · intro _ _ _ _ _; exact h
  · intro cleaned _ _ he _
    obtain rfl := List.isEmpty_eq_true.mp he
    refine ⟨rfl, ?_, ?_⟩
    · intro x hx
      rw [List.head?_cons, Option.some.injEq] at hx
      subst hx
      exact isMarkerLine_nil
    · exact hasAdjDup_cons_false [] _ h.2.2 (Or.inl rfl)
  · intro cleaned hcl hguard he
    refine ⟨rfl, ?_, ?_⟩
    · intro x hx
      rw [List.head?_cons, Option.some.injEq] at hx
      subst hx
      exact isMarkerLine_of_cleanLine raw cleaned hmr hcl
    · apply hasAdjDup_cons_false _ _ h.2.2
      right
      intro heq
      apply hguard
      refine ⟨?_, fun h0 => by rw [h0] at he; simp at he⟩
      rw [h.1, heq]

theorem adj_inv_step (s : CleanState) (raw : Line) (hng : glueHere s raw = false)
    (h : s.prev = s.rev.head? ∧ (∀ x, s.rev.head? = some x → isMarkerLine x = false) ∧
      hasAdjDup s.rev = false) :
    (step s raw).prev = (step s raw).rev.head? ∧
      (∀ x, (step s raw).rev.head? = some x → isMarkerLine x = false) ∧
      hasAdjDup (step s raw).rev = false := by
  refine step_elim (fun s' => s'.prev = s'.rev.head? ∧
      (∀ x, s'.rev.head? = some x → isMarkerLine x = false) ∧
      hasAdjDup s'.rev = false) s raw ?_ ?_ ?_ ?_ ?_ ?_
  · intro ds _ _
    refine ⟨rfl, ?_, ?_⟩
    · intro x hx
      rw [List.head?_cons, Option.some.injEq] at hx
      subst hx
      exact isMarkerLine_nil
    · refine hasAdjDup_cons_false [] _ ?_ (Or.inl rfl)
      refine hasAdjDup_cons_false _ _ h.2.2 (Or.inr ?_)
      intro heq
      have hM := h.2.1 _ heq
      rw [isMarkerLine_mkMarker ds] at hM
      simp at hM
  · intro _ _; exact h
  · intro _ _ _; exact h
  · intro _ _ _
    refine ⟨rfl, ?_, ?_⟩
    · intro x hx
      rw [List.head?_cons, Option.some.injEq] at hx
      subst hx
      exact isMarkerLine_nil
    · exact hasAdjDup_cons_false [] _ h.2.2 (Or.inl rfl)
  · intro last rest h1 h2 hrev h4
    exfalso
    unfold glueHere at hng
    rw [if_neg (by simp [h1]), if_neg (by simp [h2]), hrev] at hng
    dsimp only at hng
    rw [h4] at hng
    simp at hng
  · intro h1 _ _
    exact adj_inv_defaultClean s raw h1 h

theorem adj_inv_run : ∀ (ls : List Line) (s : CleanState), glueFreeAux s ls = true →
    (s.prev = s.rev.head? ∧ (∀ x, s.rev.head? = some x → isMarkerLine x = false) ∧
      hasAdjDup s.rev = false) →
    hasAdjDup (ls.foldl step s).rev = false
  | [], _, _, h => h.2.2
  | raw :: ls, s, hgf, h => by
    rw [glueFreeAux] at hgf
    simp only [Bool.and_eq_true, Bool.not_eq_true'] at hgf
    exact adj_inv_run ls (step s raw) hgf.2 (adj_inv_step s raw hgf.1 h)

/-! ### Canonical markers (C4) -/

theorem isCanonMarker_nil : isCanonMarker ([] : Line) = false := by decide

theorem canon_exists (l : Line) (h : isCanonMarker l = true) :
    ∃ ds, ds ≠ [] ∧ l = "<!-- Page ".data ++ ds ++ " -->".data := by
  unfold isCanonMarker at h
  simp only [Bool.and_eq_true] at h
  obtain ⟨⟨hpre, hne⟩, hsuf⟩ := h
  obtain ⟨mid, rfl⟩ := eq_append_of_isPrefixOf hpre
  have h10 : ("<!-- Page ".data ++ mid).drop 10 = mid := by
    rw [show 10 = ("<!-- Page ".data : List Char).length from rfl]
    exact List.drop_left _ _
  rw [h10] at hne hsuf
  rw [beq_iff_eq] at hsuf
  refine ⟨mid.takeWhile isDigit09, ?_, ?_⟩
  · intro h0; rw [h0] at hne; simp at hne
  · have hmid : mid = mid.takeWhile isDigit09 ++ " -->".data := by
      conv_lhs => rw [← takeWhile_append_drop_len isDigit09 mid]
      rw [hsuf]
    calc "<!-- Page ".data ++ mid
        = "<!-- Page ".data ++ (mid.takeWhile isDigit09 ++ " -->".data) := by rw [← hmid]
      _ = "<!-- Page ".data ++ mid.takeWhile isDigit09 ++ " -->".data := by
          rw [List.append_assoc]

theorem canon_isMarkerLine (l : Line) (h : isCanonMarker l = true) :
    isMarkerLine l = true := by
  obtain ⟨ds, _, rfl⟩ := canon_exists l h
  exact isMarkerLine_mkMarker ds

theorem isCanonMarker_mkMarker (ds : Line) (hne : ds ≠ [])
    (hds : ∀ c ∈ ds, isDigit09 c = true) : isCanonMarker (mkMarker ds) = true := by
  unfold isCanonMarker mkMarker
  have h10 : ∀ rest : Line, ("<!-- Page ".data ++ rest).drop 10 = rest := by
    intro rest
    rw [show 10 = ("<!-- Page ".data : List Char).length from rfl]
    exact List.drop_left _ _
  rw [List.append_assoc, h10]
  have htw : (ds ++ " -->".data).takeWhile isDigit09 = ds := by
    rw [show (" -->".data : List Char) = ' ' :: "-->".data from rfl]
    exact takeWhile_append_sat isDigit09 ds ' ' _ hds (by decide)
  rw [htw]
  simp only [Bool.and_eq_true]
  refine ⟨⟨?_, ?_⟩, ?_⟩
  · rw [← List.append_assoc]
    exact isPrefixOf_append_self _ _
  · simp [hne]
  · rw [List.drop_left]
    simp

theorem cleanLine_not_canon (raw cleaned : Line) (hmr : isMarkerLine raw = false)
    (hcl : cleanLine raw = some cleaned) : isCanonMarker cleaned = false := by
  cases hc : isCanonMarker cleaned
  · rfl
  · exfalso
    have h1 := canon_isMarkerLine _ hc
    rw [isMarkerLine_of_cleanLine raw cleaned hmr hcl] at h1
    simp at h1

theorem glueResult_not_canon (last w : Line) (hwne : w ≠ [])
    (hsp : w.contains ' ' = false) (hlm : startsListMarker w = false) :
    isCanonMarker (glueResult last w) = false := by
  cases hc : isCanonMarker (glueResult last w)
  · rfl
  exfalso
  obtain ⟨ds, hdne, heq⟩ := canon_exists _ hc
  have hrev := congrArg List.reverse heq
  rw [List.reverse_append, List.reverse_append,
    show (" -->".data : List Char).reverse = '>' :: '-' :: '-' :: ' ' :: [] from by decide]
    at hrev
  have hwr : w.reverse ≠ [] := by simpa [List.reverse_eq_nil_iff] using hwne
  have hwmem : ∀ x ∈ w.reverse, w.contains x = true := by
    intro x hx
    exact contains_of_mem (List.mem_reverse.mp hx)
  by_cases hh : endsHyphen last = true
  · rw [glueResult, if_pos hh, List.reverse_append, rstripHyphens, List.reverse_reverse] at hrev
    rcases hwr' : w.reverse with _ | ⟨a, _ | ⟨b, _ | ⟨c, _ | ⟨d, rest⟩⟩⟩⟩
    · exact hwr hwr'
    · rw [hwr'] at hrev
      simp only [List.cons_append, List.nil_append, List.cons.injEq] at hrev
      obtain ⟨-, hD⟩ := hrev
      have : isHyphenChar '-' = false :=
        head?_dropWhile_not _ _ _ (by rw [hD]; rfl)
      simp [isHyphenChar] at this
    · rw [hwr'] at hrev
      simp only [List.cons_append, List.nil_append, List.cons.injEq] at hrev
      obtain ⟨-, -, hD⟩ := hrev
      have : isHyphenChar '-' = false :=
        head?_dropWhile_not _ _ _ (by rw [hD]; rfl)
      simp [isHyphenChar] at this
    · rw [hwr'] at hrev
      simp only [List.cons_append, List.nil_append, List.cons.injEq] at hrev
      obtain ⟨ha, hb, hc', -⟩ := hrev
      have hw3 : w = ['-', '-', '>'] := by
        rw [← List.reverse_reverse w, hwr', ha, hb, hc']
        rfl
      rw [hw3] at hlm
      simp [startsListMarker] at hlm
    · rw [hwr'] at hrev
      simp only [List.cons_append, List.nil_append, List.cons.injEq] at hrev
      obtain ⟨-, -, -, hd', -⟩ := hrev
      have hmem : w.contains ' ' = true := by
        apply hwmem
        rw [hwr', hd']
        exact List.mem_cons_of_mem _ (List.mem_cons_of_mem _
          (List.mem_cons_of_mem _ (List.mem_cons_self _ _)))
      rw [hmem] at hsp
      simp at hsp
  · rw [glueResult, if_neg hh, List.reverse_append, List.reverse_cons] at hrev
    rcases hwr' : w.reverse with _ | ⟨a, _ | ⟨b, _ | ⟨c, _ | ⟨d, rest⟩⟩⟩⟩
    · rw [hwr'] at hrev
      simp only [List.nil_append, List.cons_append, List.cons.injEq] at hrev
      exact absurd hrev.1 (by decide)
    · rw [hwr'] at hrev
      simp only [List.cons_append, List.nil_append, List.append_assoc, List.cons.injEq] at hrev
      exact absurd hrev.2.1 (by decide)
    · rw [hwr'] at hrev
      simp only [List.cons_append, List.nil_append, List.append_assoc, List.cons.injEq] at hrev
      exact absurd hrev.2.2.1 (by decide)
    · rw [hwr'] at hrev
      simp only [List.cons_append, List.nil_append, List.append_assoc, List.cons.injEq] at hrev
      obtain ⟨ha, hb, hc', -⟩ := hrev
      have hw3 : w = ['-', '-', '>'] := by
        rw [← List.reverse_reverse w, hwr', ha, hb, hc']
        rfl
      rw [hw3] at hlm
      simp [startsListMarker] at hlm
    · rw [hwr'] at hrev
      simp only [List.cons_append, List.nil_append, List.append_assoc, List.cons.injEq] at hrev
      obtain ⟨-, -, -, hd', -⟩ := hrev
      have hmem : w.contains ' ' = true := by
        apply hwmem
        rw [hwr', hd']
        exact List.mem_cons_of_mem _ (List.mem_cons_of_mem _
          (List.mem_cons_of_mem _ (List.mem_cons_self _ _)))
      rw [hmem] at hsp
      simp at hsp

theorem filter_canon_defaultClean (s : CleanState) (raw : Line)
    (hmr : isMarkerLine raw = false) :
    (defaultClean s raw).rev.filter isCanonMarker = s.rev.filter isCanonMarker := by
  refine defaultClean_elim
    (fun s' => s'.rev.filter isCanonMarker = s.rev.filter isCanonMarker) s raw ?_ ?_ ?_ ?_ ?_
  · intro _; rfl
  · intro _ _ _ _; rfl
  · intro _ _ _ _ _; rfl
  · intro cleaned hcl _ _ _
    rw [List.filter_cons, if_neg (by simp [cleanLine_not_canon raw cleaned hmr hcl])]
  · intro cleaned hcl _ _
    rw [List.filter_cons, if_neg (by simp [cleanLine_not_canon raw cleaned hmr hcl])]

theorem filter_canon_step (s : CleanState) (raw : Line) :
    (step s raw).rev.filter isCanonMarker =
      (match markerOut raw with
       | some m => m :: s.rev.filter isCanonMarker
       | none => s.rev.filter isCanonMarker) := by
  refine step_elim
    (fun s' => s'.rev.filter isCanonMarker =
      (match markerOut raw with
       | some m => m :: s.rev.filter isCanonMarker
       | none => s.rev.filter isCanonMarker)) s raw ?_ ?_ ?_ ?_ ?_ ?_
  · intro ds h1 hs
    obtain ⟨hdne, hds⟩ := searchPage_some raw ds hs
    have hM := isCanonMarker_mkMarker ds hdne hds
    rw [show markerOut raw = some (mkMarker ds) from by simp [markerOut, h1, hs]]
    rw [List.filter_cons, if_neg (by simp [isCanonMarker_nil]),
      List.filter_cons, if_pos (by simp [hM])]
  · intro h1 hs
    rw [show markerOut raw = none from by simp [markerOut, h1, hs]]
  · intro h1 _ _
    rw [show markerOut raw = none from by simp [markerOut, h1]]
  · intro h1 _ _
    rw [show markerOut raw = none from by simp [markerOut, h1]]
    rw [List.filter_cons, if_neg (by simp [isCanonMarker_nil])]
  · intro last rest h1 h2 hrev h4
    rw [show markerOut raw = none from by simp [markerOut, h1]]
    obtain ⟨hsp, hlne, hlm, -, hslm, -⟩ := glueCondB_facts _ _ h4
    have hwne : strip raw ≠ [] := fun h0 => by rw [h0] at h2; simp at h2
    have hgc : isCanonMarker (glueResult last (strip raw)) = false :=
      glueResult_not_canon last (strip raw) hwne hsp hslm
    have hlc : isCanonMarker last = false := by
      cases hlc' : isCanonMarker last
      · rfl
      · exfalso
        have := canon_isMarkerLine _ hlc'
        rw [hlm] at this
        simp at this
    rw [hrev, List.filter_cons, if_neg (by rw [hgc]; simp),
      List.filter_cons, if_neg (by rw [hlc]; simp)]
  · intro h1 _ _
    rw [show markerOut raw = none from by simp [markerOut, h1]]
    exact filter_canon_defaultClean s raw h1

theorem filter_canon_run : ∀ (ls : List Line) (s : CleanState),
    (ls.foldl step s).rev.filter isCanonMarker =
      (ls.filterMap markerOut).reverse ++ s.rev.filter isCanonMarker
  | [], s => by simp
  | raw :: ls, s => by
    rw [List.foldl_cons, filter_canon_run ls (step s raw), List.filterMap_cons,
      filter_canon_step s raw]
    cases hmo : markerOut raw with
    | none => rfl
    | some m => simp

theorem filter_canon_dropWhile (l : List Line) :
    (l.dropWhile isEmptyLine).filter isCanonMarker = l.filter isCanonMarker := by
  conv_rhs => rw [← List.takeWhile_append_dropWhile isEmptyLine l]
  rw [List.filter_append]
  have h0 : (l.takeWhile isEmptyLine).filter isCanonMarker = [] := by
    rw [List.filter_eq_nil_iff]
    intro a ha
    have hae : isEmptyLine a = true := List.mem_takeWhile_imp ha
    have ha' : a = [] := List.isEmpty_eq_true.mp hae
    rw [ha']
    simp [isCanonMarker_nil]
  rw [h0, List.nil_append]

theorem filter_canon_trimEnds (out : List Line) :
    (trimEnds out).filter isCanonMarker = out.filter isCanonMarker := by
  unfold trimEnds
  rw [List.filter_reverse, filter_canon_dropWhile, List.filter_reverse, List.reverse_reverse,
    filter_canon_dropWhile]

/-! ### End trimming -/

theorem noEmptyEnds_trimEnds (out : List Line) : noEmptyEnds (trimEnds out) = true := by
  unfold trimEnds
  cases hB : (out.dropWhile isEmptyLine).reverse.dropWhile isEmptyLine with
  | nil => rfl
  | cons b t =>
    have hb : isEmptyLine b = false :=
      head?_dropWhile_not _ _ _ (by rw [hB]; rfl)
    have hBne : (out.dropWhile isEmptyLine).reverse.dropWhile isEmptyLine ≠ [] := by
      rw [hB]; simp
    have hAne : out.dropWhile isEmptyLine ≠ [] := by
      intro h0
      rw [h0] at hB
      simp [List.dropWhile] at hB
    obtain ⟨a, ha⟩ : ∃ x, (out.dropWhile isEmptyLine).head? = some x := by
      cases hA : out.dropWhile isEmptyLine with
      | nil => exact absurd hA hAne
      | cons x xs => exact ⟨x, rfl⟩
    have haE : isEmptyLine a = false := head?_dropWhile_not _ _ _ ha
    have hlast : (b :: t).getLast? = some a := by
      rw [← hB, ← getLast?_of_suffix (List.dropWhile_suffix isEmptyLine) hBne,
        List.getLast?_reverse]
      exact ha
    unfold noEmptyEnds
    rw [List.head?_reverse, List.getLast?_reverse, hlast, List.head?_cons]
    simp only [isEmptyLine] at hb haE
    simp [hb, haE]

/-! ### Malformed page markers (C8) -/

theorem unparseable_marker_step (raw : Line)
    (h1 : isMarkerLine raw = true) (h2 : searchPage raw = none) (s : CleanState) :
    step s raw = s := by
  unfold step
  rw [if_pos h1, h2]

/-! ### Claims settled by invariants -/

/-- C2 amended: on every input on which the glue heuristic never fires, the
output contains no two identical consecutive non-empty lines.  (The original
claim fails when the glue heuristic rewrites the last buffer entry; see the
counterexample.) -/
theorem c2_no_adjacent_duplicates (c : Line) (h : glueFree c = true) :
    hasAdjDup (cleanContent c) = false := by
  have hrun : hasAdjDup (runLines (splitNl c)).rev = false := by
    apply adj_inv_run (splitNl c) initState h
    refine ⟨rfl, ?_, rfl⟩
    intro x hx
    simp [initState] at hx
  unfold cleanContent cleanedList trimEnds runLines
  apply hasAdjDup_reverse_false
  apply hasAdjDup_dropWhile_false
  apply hasAdjDup_reverse_false
  apply hasAdjDup_dropWhile_false
  apply hasAdjDup_reverse_false
  exact hrun

/-- Witness for the amended C2 at a concrete glue-free input. -/
theorem c2_no_adjacent_duplicates_witness :
    glueFree (lit "hello world\nfoo bar") = true ∧
    hasAdjDup (cleanContent (lit "hello world\nfoo bar")) = false :=
  ⟨by decide, c2_no_adjacent_duplicates _ (by decide)⟩

/-- C4: the output lines that are canonical page markers are exactly, and in
order, the canonical forms of the input lines whose trimmed form starts with
`<!-- Page` and from which a page number is extractable — each such line
produces exactly one canonical marker, and no later step (glue, empty-line
limiting, duplicate suppression, end trimming) deletes, merges or forges
one. -/
theorem c4_page_marker_preservation (c : Line) :
    (cleanContent c).filter isCanonMarker = (splitNl c).filterMap markerOut := by
  unfold cleanContent cleanedList runLines
  rw [filter_canon_trimEnds, List.filter_reverse, filter_canon_run (splitNl c) initState]
  simp [initState]

/-- C5: the output of `clean_markdown_content` never contains three or more
consecutive empty lines (the page-marker path resets the counter to 1, the
empty path bounds runs at 2). -/
theorem c5_no_triple_blank (c : Line) :
    hasTripleEmptyLine (cleanContent c) = false := by
  have hrun := triple_inv_run (splitNl c) initState ⟨rfl, Nat.le_refl 0⟩
  unfold cleanContent cleanedList trimEnds runLines
  apply hasTriple_reverse_false
  apply hasTriple_dropWhile_false
  apply hasTriple_reverse_false
  apply hasTriple_dropWhile_false
  apply hasTriple_reverse_false
  exact hrun.1

/-- C8: a line whose trimmed form starts with `<!-- Page` but from which no
page number is extractable leaves the loop state unchanged, hence it
contributes no output line wherever it occurs; the function is a total
function on all inputs. -/
theorem c8_malformed_marker (raw : Line)
    (h1 : isMarkerLine raw = true) (h2 : searchPage raw = none) :
    (∀ s, step s raw = s) ∧
    ∀ ls₁ ls₂ : List Line, cleanedList (ls₁ ++ raw :: ls₂) = cleanedList (ls₁ ++ ls₂) := by
  refine ⟨unparseable_marker_step raw h1 h2, fun ls₁ ls₂ => ?_⟩
  unfold cleanedList runLines
  have hmid : List.foldl step (List.foldl step initState ls₁) (raw :: ls₂)
      = List.foldl step (List.foldl step initState ls₁) ls₂ := by
    rw [List.foldl_cons, unparseable_marker_step raw h1 h2]
  rw [List.foldl_append, List.foldl_append, hmid]

/-- Witness for C8 at the digit-free marker line `"<!-- Page -->"`. -/
theorem c8_malformed_marker_witness :
    isMarkerLine (lit "<!-- Page -->") = true ∧
    searchPage (lit "<!-- Page -->") = none ∧
    step initState (lit "<!-- Page -->") = initState ∧
    cleanedList ([lit "ab cd"] ++ lit "<!-- Page -->" :: [lit "ef gh"]) =
      cleanedList ([lit "ab cd"] ++ [lit "ef gh"]) :=
  ⟨by decide, by decide,
    (c8_malformed_marker _ (by decide) (by decide)).1 initState,
    (c8_malformed_marker _ (by decide) (by decide)).2 [lit "ab cd"] [lit "ef gh"]⟩

/-- C9: the output of `clean_markdown_content` neither starts nor ends with
an empty line. -/
theorem c9_trim_ends (c : Line) : noEmptyEnds (cleanContent c) = true := by
  unfold cleanContent cleanedList
  exact noEmptyEnds_trimEnds _

/-- C10: every line of the output of `clean_markdown_content` is unchanged
by stripping — it is either empty or carries no leading or trailing
whitespace. -/
theorem c10_line_whitespace (c : Line) :
    (cleanContent c).all (fun l => strip l == l) = true := by
  rw [List.all_eq_true]
  intro l hl
  rw [beq_iff_eq]
  have hrev : ∀ x ∈ (runLines (splitNl c)).rev, strip x = x := by
    apply stripped_inv_run (splitNl c) initState
    intro x hx
    simp [initState] at hx
  apply hrev
  have h1 : l ∈ ((((runLines (splitNl c)).rev.reverse).dropWhile
      isEmptyLine).reverse.dropWhile isEmptyLine).reverse := hl
  rw [List.mem_reverse] at h1
  have h2 := (List.dropWhile_suffix isEmptyLine).sublist.subset h1
  rw [List.mem_reverse] at h2
  have h3 := (List.dropWhile_suffix isEmptyLine).sublist.subset h2
  rw [List.mem_reverse] at h3
  exact h3

/-! ### Concrete claims -/

/-- C1: the spec requires the hyphenated-wrap rejoin for a previous line
ending in an ASCII hyphen, but the sentence-terminal guard of line 148
contains `\-`, so the ASCII-hyphen branch of lines 150-151 is unreachable:
`"компь-"` followed by `"ютер"` is left as two lines.  Only the Unicode
non-breaking hyphen U+2011 triggers the no-space rejoin. -/
theorem c1_hyphen_wrap_divergence :
    clean_markdown_content (lit "компь-\nютер") = lit "компь-\nютер" ∧
    clean_markdown_content (lit "компь‑\nютер") = lit "компьютер" := by
  constructor <;> decide

/-- C2 counterexample: the glue heuristic can rewrite the last buffer entry
into an exact copy of the line before it, so the output can contain two
identical consecutive non-empty lines. -/
theorem c2_counterexample :
    cleanContent (lit "look abc...12\nlook\nabc...12") =
      [lit "look abc...12", lit "look abc...12"] ∧
    hasAdjDup (cleanContent (lit "look abc...12\nlook\nabc...12")) = true ∧
    (lit "look abc...12").isEmpty = false := by
  refine ⟨by decide, by decide, by decide⟩

/-- C3 counterexample: a first pass can create adjacent duplicate lines via
the glue heuristic, which a second pass removes, so the sanitizer is not
idempotent on all inputs. -/
theorem c3_counterexample :
    clean_markdown_content (lit "word abcd...9\nword\nabcd...9") =
      lit "word abcd...9\nword abcd...9" ∧
    clean_markdown_content (clean_markdown_content (lit "word abcd...9\nword\nabcd...9")) =
      lit "word abcd...9" ∧
    (clean_markdown_content (clean_markdown_content (lit "word abcd...9\nword\nabcd...9")) ==
      clean_markdown_content (lit "word abcd...9\nword\nabcd...9")) = false := by
  refine ⟨by decide, by decide, by decide⟩

/-- C3 amended: the sanitizer is idempotent on already-clean input, i.e. on
any fixed point of `clean_markdown_content`. -/
theorem c3_idempotent_on_clean (c : Line) (h : clean_markdown_content c = c) :
    clean_markdown_content (clean_markdown_content c) = clean_markdown_content c := by
  rw [h]; exact h

/-- Witness for the amended C3 at the already-clean input `"hello world"`. -/
theorem c3_idempotent_on_clean_witness :
    clean_markdown_content (lit "hello world") = lit "hello world" ∧
    clean_markdown_content (clean_markdown_content (lit "hello world")) =
      clean_markdown_content (lit "hello world") :=
  ⟨by decide, c3_idempotent_on_clean _ (by decide)⟩

/-- C6: the glue heuristic runs strictly before `clean_line` filtering: the
one-word line `"xy"` would be discarded as noise by `clean_line`, yet it
survives in the output, absorbed into the previous emitted line. -/
theorem c6_glue_precedes_filtering :
    cleanLine (lit "xy") = none ∧
    cleanContent (lit "abcd efgh\nxy") = [lit "abcd efgh xy"] := by
  refine ⟨by decide, by decide⟩

/-- C7: `clean_line` discards `"##"` (entirely non-alphanumeric) and `"a"`
(length 1, not a page-marker prefix), and keeps `"1."` (short list-marker
pattern). -/
theorem c7_short_noise :
    cleanLine (lit "##") = none ∧ cleanLine (lit "a") = none ∧
    cleanLine (lit "1.") = some (lit "1.") := by
  refine ⟨by decide, by decide, by decide⟩
